import Mathlib

/-!
Verification of the BetterDefaultCPMV file-transfer engine against its
design specification. The Rust sources under src/ are shallowly embedded:
byte contents are lists of naturals, paths are strings or character lists,
fallible operations return Except, and the stateful copy loops are made
explicit as pure functions or operation traces. Each definition names the
source item it embeds.
-/

namespace BetterCp

/-- Classification of OS-level I/O errors (std::io::ErrorKind), restricted
to the kinds the repository inspects plus the kind the OS reports for a
rename across filesystems (EXDEV), which the Rust standard library
classifies as CrossesDevices, never as InvalidInput. -/
inductive IoErrorKind where
  | notFound
  | permissionDenied
  | invalidInput
  | crossesDevices
  | outOfMemory
  | uncategorized
deriving DecidableEq, Repr

/-- Error enum from src/error.rs. The two digests carried by
checksumMismatch are modelled as naturals (the hex digest strings compared
only for equality). -/
inductive Error where
  | io (kind : IoErrorKind)
  | sourceNotFound (path : String)
  | targetExists (path : String)
  | permissionDenied (path : String)
  | checksumMismatch (expected actual : Nat)
  | invalidResumeState
  | userAborted
  | diskFull
  | configError (msg : String)
  | custom (msg : String)
deriving DecidableEq, Repr

/-- ChunkInfo from src/resume.rs: one completed byte range of a transfer. -/
structure ChunkInfo where
  offset : Nat
  length : Nat
  checksum : Option String
deriving DecidableEq, Repr

/-- ResumeState from src/resume.rs: the persisted resume ledger record. -/
structure ResumeState where
  source : String
  target : String
  total_size : Nat
  chunks_completed : List ChunkInfo
  timestamp : String
  version : String
deriving DecidableEq, Repr

/-- ResumeState::bytes_completed (resume.rs lines 93-95): the sum of the
lengths of the completed chunks. -/
def ResumeState.bytes_completed (s : ResumeState) : Nat :=
  (s.chunks_completed.map ChunkInfo.length).sum

/-- The sort of ResumeState::validate (resume.rs line 100):
sort_by_key on the offset, which is a stable sort; List.insertionSort with
a non-strict key comparison is likewise stable. -/
def sortChunks (cs : List ChunkInfo) : List ChunkInfo :=
  cs.insertionSort (fun a b => a.offset ≤ b.offset)

/-- The walk of ResumeState::validate (resume.rs lines 103-109): each chunk
of the sorted list must start exactly at the running expected offset, which
then advances by the length of the chunk. -/
def validateWalk (expected : Nat) : List ChunkInfo → Bool
  | [] => true
  | c :: rest =>
    if c.offset ≠ expected then false
    else validateWalk (c.offset + c.length) rest

/-- ResumeState::validate (resume.rs lines 98-112): run the walk from
offset 0 over the chunks sorted by offset; any deviation yields
Err(InvalidResumeState). The total_size field is never consulted. -/
def ResumeState.validate (s : ResumeState) : Except Error Unit :=
  if validateWalk 0 (sortChunks s.chunks_completed) then .ok () else .error .invalidResumeState

/-- Spec-side predicate, following the words of the claim about validation:
the completed ranges, sorted by offset, tile the interval from 0 to
total_size contiguously, ending exactly at total_size (full coverage).
Written for comparison with the validate embedded from the source. -/
def tilesUpTo (expected total : Nat) : List ChunkInfo → Bool
  | [] => expected == total
  | c :: rest =>
    if c.offset == expected then tilesUpTo (c.offset + c.length) total rest else false

/-- Spec-side full-coverage validation for a ResumeState record (the claim
as written: sorted ranges tile the half-open interval up to total_size). -/
def specTilesTotal (s : ResumeState) : Bool :=
  tilesUpTo 0 s.total_size (sortChunks s.chunks_completed)

/-- CHUNK_SIZE from copy.rs, parallel.rs and move.rs: 64 MiB. -/
def CHUNK_SIZE : Nat := 64 * 1024 * 1024

/-- The chunked read/write loop shared by copy.rs lines 158-184,
parallel.rs sequential_copy and move.rs move_via_copy: read up to
CHUNK_SIZE bytes of src at pos, append them to the destination, stop when
a read returns zero bytes. Fuel bounds the recursion; src.length + 1 is
always enough because every non-final iteration advances pos. -/
def readLoop (src : List Nat) (pos : Nat) (dstAcc : List Nat) : Nat → List Nat
  | 0 => dstAcc
  | fuel + 1 =>
    if ((src.drop pos).take CHUNK_SIZE).length = 0 then dstAcc
    else readLoop src (pos + ((src.drop pos).take CHUNK_SIZE).length)
      (dstAcc ++ (src.drop pos).take CHUNK_SIZE) fuel

theorem take_len_append_drop (l : List Nat) (n : Nat) :
    l.take n ++ l.drop (l.take n).length = l := by
  have h : l.take ((l.take n).length) = l.take n := by
    rw [List.take_eq_take]
    simp only [List.length_take]
    omega
  calc l.take n ++ l.drop (l.take n).length
      = l.take ((l.take n).length) ++ l.drop ((l.take n).length) := by rw [h]
    _ = l := List.take_append_drop _ _

theorem readLoop_eq (src : List Nat) :
    ∀ fuel pos dstAcc, src.length ≤ pos + fuel →
      readLoop src pos dstAcc fuel = dstAcc ++ src.drop pos := by
  intro fuel
  induction fuel with
  | zero =>
    intro pos dstAcc h
    have hd : src.drop pos = [] := List.drop_eq_nil_of_le (by omega)
    simp [readLoop, hd]
  | succ n ih =>
    intro pos dstAcc h
    rw [readLoop]
    by_cases hz : ((src.drop pos).take CHUNK_SIZE).length = 0
    · have hC : 0 < CHUNK_SIZE := by decide
      have hd : src.drop pos = [] := by
        rcases List.take_eq_nil_iff.mp (List.length_eq_zero.mp hz) with h1 | h1
        · omega
        · exact h1
      simp [hz, hd]
    · simp only [hz, if_false]
      have hpos : 0 < ((src.drop pos).take CHUNK_SIZE).length := Nat.pos_of_ne_zero hz
      rw [ih _ _ (by omega)]
      rw [List.append_assoc]
      congr 1
      rw [← List.drop_drop]
      exact take_len_append_drop (src.drop pos) CHUNK_SIZE

/-- A fresh (non-resumed) sequential copy: File::create truncates the
destination and the chunk loop copies everything (copy.rs lines 130, 158-184;
the same shape appears in parallel.rs sequential_copy). -/
def freshCopy (src : List Nat) : List Nat :=
  readLoop src 0 [] (src.length + 1)

theorem freshCopy_eq (src : List Nat) : freshCopy src = src := by
  unfold freshCopy
  rw [readLoop_eq src _ 0 [] (by omega)]
  simp

theorem validateWalk_iff (cs : List ChunkInfo) :
    ∀ e, validateWalk e cs = true ↔
      ∀ i (h : i < cs.length),
        (cs.get ⟨i, h⟩).offset = e + ((cs.take i).map ChunkInfo.length).sum := by
  induction cs with
  | nil =>
    intro e
    simp [validateWalk]
  | cons c rest ih =>
    intro e
    rw [validateWalk]
    by_cases hco : c.offset = e
    · subst hco
      rw [if_neg (by simp)]
      rw [ih]
      constructor
      · intro hr i h
        match i with
        | 0 => simp
        | j + 1 =>
          simp only [List.get_cons_succ, List.take_succ_cons, List.map_cons,
            List.sum_cons, ← Nat.add_assoc]
          exact hr j (by simpa using h)
      · intro hall i h
        have hh := hall (i + 1) (by simpa using Nat.succ_lt_succ h)
        simp only [List.get_cons_succ, List.take_succ_cons, List.map_cons,
          List.sum_cons, ← Nat.add_assoc] at hh
        exact hh
    · rw [if_pos hco]
      constructor
      · intro hfalse
        simp at hfalse
      · intro hall
        exfalso
        have h0 := hall 0 (by simp)
        simp at h0
        exact hco h0

/-- perform_copy in its resume branch (copy.rs lines 134-146 then 158-184):
the source reader seeks to the completed byte count, the destination file is
opened without truncation, keeps all its prior contents, and seeks to
end-of-file; the chunk loop then appends the remaining source bytes there. -/
def perform_copy_resumed (src dstExisting : List Nat) (bytesDone : Nat) : List Nat :=
  readLoop src bytesDone dstExisting (src.length + 1)

theorem perform_copy_resumed_eq (src dstExisting : List Nat) (bytesDone : Nat) :
    perform_copy_resumed src dstExisting bytesDone = dstExisting ++ src.drop bytesDone := by
  unfold perform_copy_resumed
  exact readLoop_eq src _ _ _ (by omega)

/-- What the resume sidecar slot for a destination holds when FileCopier::copy
runs: nothing, unparseable bytes, or a parseable record. -/
inductive SidecarContents where
  | absent
  | unparseable
  | parsed (s : ResumeState)
deriving Repr

/-- ResumeState::load (resume.rs lines 61-72): a missing sidecar file yields
Ok(None); unparseable contents yield Err(InvalidResumeState); otherwise the
parsed record is returned. -/
def ResumeState.load (sc : SidecarContents) : Except Error (Option ResumeState) :=
  match sc with
  | .absent => .ok none
  | .unparseable => .error .invalidResumeState
  | .parsed s => .ok (some s)

/-- FileCopier::copy (copy.rs lines 43-102) on a regular source file, with the
resume prompt answered with resume: the load at line 56 and the validate at
line 64 both propagate errors through the question-mark operator, so an
unparseable or non-contiguous record aborts the whole copy; only when no
record exists does the operation run a fresh transfer. On success the final
destination contents are returned. -/
def FileCopier.copyWithResume (resumeFlag : Bool) (sc : SidecarContents)
    (src dstExisting : List Nat) : Except Error (List Nat) :=
  match (if resumeFlag then ResumeState.load sc else .ok none) with
  | .error e => .error e
  | .ok none => .ok (freshCopy src)
  | .ok (some st) =>
    match st.validate with
    | .error e => .error e
    | .ok () => .ok (perform_copy_resumed src dstExisting st.bytes_completed)

/-- Index of the last dot of a file name that is not its first character: the
separator Path::set_extension splits at when the file name has an extension
(std::path semantics for an ordinary file name). -/
def lastDotIdxGe1 (cs : List Char) : Option Nat :=
  (List.range cs.length).foldl
    (fun acc i => if 1 ≤ i ∧ cs.getD i ' ' = '.' then some i else acc) none

/-- PathBuf::set_extension on the file-name part of a path (std::path): drop
the current extension when there is one (everything after the last dot that
is not the leading character), then append a dot and the new extension. -/
def setExtension (name ext : List Char) : List Char :=
  match lastDotIdxGe1 name with
  | some i => name.take i ++ '.' :: ext
  | none => name ++ '.' :: ext

/-- perform_copy lines 108-115 of copy.rs: in atomic mode every streamed
chunk is written to target.set_extension("tmp"); otherwise directly to the
target. -/
def writeTargetName (atomic : Bool) (target : List Char) : List Char :=
  if atomic then setExtension target ("tmp".toList) else target

/-- compute_checksum (verify.rs lines 9-23) modelled as an injective digest of
the byte content: SHA-256 idealised as collision-free, here a base-257
accumulator so distinct byte strings give distinct digests. Claims use the
digest only through equality. -/
def compute_checksum (content : List Nat) : Nat :=
  content.foldl (fun h b => h * 257 + b % 256 + 1) 0

/-- verify_copy (copy.rs lines 244-258): compare the source and target
digests; on difference fail with checksumMismatch carrying both. -/
def verify_copy (srcContent tgtContent : List Nat) : Except Error Unit :=
  if compute_checksum srcContent = compute_checksum tgtContent then .ok ()
  else .error (.checksumMismatch (compute_checksum srcContent) (compute_checksum tgtContent))

deriving instance DecidableEq for Except

/-- Outcome of the tail of perform_copy (copy.rs lines 195-206): the result of
the operation and whether state.cleanup deleted the ledger record. -/
structure SeqFinish where
  result : Except Error Unit
  ledgerDeleted : Bool
deriving DecidableEq, Repr

/-- Tail of perform_copy (copy.rs lines 195-206): the question mark on
verify_copy at line 197 returns before the cleanup at line 202, so a failed
verification leaves the ledger record in place; on success (or with
verification off) the record is deleted. -/
def finishSequential (verify : Bool) (srcContent tgtContent : List Nat) : SeqFinish :=
  if verify then
    match verify_copy srcContent tgtContent with
    | .error e => ⟨.error e, false⟩
    | .ok () => ⟨.ok (), true⟩
  else ⟨.ok (), true⟩

/-- Action taken after the rename attempt of a move. -/
inductive RenameOutcome where
  | renamed
  | copyThenDelete
  | propagated (e : Error)
deriving DecidableEq, Repr

/-- FileMover::move_file rename dispatch (move.rs lines 54-74): a successful
rename finishes the move; an error whose kind is InvalidInput or
PermissionDenied falls back to copy-then-delete; any other error kind is
propagated to the caller unchanged. The argument is none on a successful
rename, some kind on a failed one. -/
def move_file_dispatch (renameError : Option IoErrorKind) : RenameOutcome :=
  match renameError with
  | none => .renamed
  | some k =>
    if k = .invalidInput ∨ k = .permissionDenied then .copyThenDelete
    else .propagated (.io k)

/-- move_directory rename dispatch (move.rs lines 174-194): identical
structure to the file dispatch. -/
def move_directory_dispatch (renameError : Option IoErrorKind) : RenameOutcome :=
  match renameError with
  | none => .renamed
  | some k =>
    if k = .invalidInput ∨ k = .permissionDenied then .copyThenDelete
    else .propagated (.io k)

/-- Filesystem side effects of the copy-then-delete path, at the granularity
the trace model records: successful chunk reads and writes, and deletion of
the source. -/
inductive FsOp where
  | readChunk (idx : Nat)
  | writeChunk (idx : Nat)
  | deleteSource
deriving DecidableEq, Repr

/-- The streaming loop of FileMover::move_via_copy (move.rs lines 97-106) as
an operation trace: chunk indices are processed in order, a failing read or
write makes the question-mark operator return the I/O error at once, and the
trace records the operations that completed. readFails and writeFails say at
which chunk index the underlying call fails. -/
def copyLoopTrace (readFails writeFails : Nat → Bool) : Nat → Nat → List FsOp × Option Error
  | 0, _ => ([], none)
  | remaining + 1, idx =>
    if readFails idx then ([], some (.io .uncategorized))
    else if writeFails idx then ([FsOp.readChunk idx], some (.io .uncategorized))
    else
      match copyLoopTrace readFails writeFails remaining (idx + 1) with
      | (tr, e) => (FsOp.readChunk idx :: FsOp.writeChunk idx :: tr, e)

/-- FileMover::move_via_copy (move.rs lines 80-120): stream all chunks, then
delete the source only after the loop has completed without error; a failure
inside the loop returns first, leaving the source untouched. -/
def move_via_copy (numChunks : Nat) (readFails writeFails : Nat → Bool) :
    List FsOp × Option Error :=
  match copyLoopTrace readFails writeFails numChunks 0 with
  | (tr, some e) => (tr, some e)
  | (tr, none) => (tr ++ [FsOp.deleteSource], none)

/-- move_directory_via_copy (move.rs lines 200-219): copy_directory runs
first and its error propagates through the question-mark operator before any
deletion; only on success does remove_dir_all delete the source tree. -/
def move_directory_via_copy (copyResult : Option Error) : List FsOp × Option Error :=
  match copyResult with
  | some e => ([], some e)
  | none => ([FsOp.deleteSource], none)

/-- num_chunks of parallel_copy (parallel.rs line 94): ceiling division of the
total size by CHUNK_SIZE. -/
def num_chunks (total_size : Nat) : Nat :=
  (total_size + CHUNK_SIZE - 1) / CHUNK_SIZE

/-- actual_threads of parallel_copy (parallel.rs line 95): the thread count
capped by the number of chunks. -/
def actual_threads (parallel_threads num_chunks_v : Nat) : Nat :=
  min parallel_threads num_chunks_v

/-- Chunk indices handled by one worker (parallel.rs line 144):
the Rust iterator (thread_id..total_chunks).step_by(num_threads), that is
thread_id, thread_id + num_threads, ... below total_chunks. -/
def workerChunks (thread_id total_chunks num_threads : Nat) : List Nat :=
  List.range' thread_id ((total_chunks - thread_id + num_threads - 1) / num_threads)
    num_threads

/-- Byte range written for chunk idx of a file of size S (parallel.rs
copy_chunk lines 145-161): offset idx * CHUNK_SIZE, length the number of
bytes the read at that offset returns. -/
def chunkByteRange (S idx b : Nat) : Prop :=
  idx * CHUNK_SIZE ≤ b ∧ b < idx * CHUNK_SIZE + min CHUNK_SIZE (S - idx * CHUNK_SIZE)

instance (S idx b : Nat) : Decidable (chunkByteRange S idx b) := by
  unfold chunkByteRange
  infer_instance

theorem mem_workerChunks {t total N idx : Nat} (hN : 0 < N) (ht : t < N) :
    idx ∈ workerChunks t total N ↔ idx < total ∧ idx % N = t := by
  unfold workerChunks
  rw [List.mem_range']
  constructor
  · rintro ⟨k, hk, rfl⟩
    have hk1 : k + 1 ≤ (total - t + N - 1) / N := hk
    have hmul : (k + 1) * N ≤ total - t + N - 1 := (Nat.le_div_iff_mul_le hN).mp hk1
    rw [Nat.succ_mul] at hmul
    have hcomm : N * k = k * N := Nat.mul_comm N k
    constructor
    · rw [hcomm]
      generalize hM : k * N = M at hmul ⊢
      omega
    · rw [hcomm, Nat.add_mul_mod_self_right]
      exact Nat.mod_eq_of_lt ht
  · rintro ⟨hlt, hmod⟩
    refine ⟨idx / N, ?_, ?_⟩
    · have h1 := Nat.div_add_mod idx N
      rw [Nat.lt_iff_add_one_le, Nat.le_div_iff_mul_le hN, Nat.succ_mul]
      have hcomm : N * (idx / N) = idx / N * N := Nat.mul_comm _ _
      rw [hcomm] at h1
      generalize hM : idx / N * N = M at h1 ⊢
      omega
    · have h1 := Nat.div_add_mod idx N
      generalize hM : N * (idx / N) = M at h1 ⊢
      omega

/-- ParallelFileCopier from parallel.rs lines 12-32. -/
structure ParallelFileCopier where
  source : String
  target : String
  parallel_threads : Nat
  verify : Bool
deriving DecidableEq, Repr

/-- What stat of the source path reports, plus the source byte contents. -/
structure SourceInfo where
  present : Bool
  is_file : Bool
  content : List Nat
deriving DecidableEq, Repr

/-- Write data over file at offset off (copy_chunk lines 151-159: seek to the
offset, then write_all). -/
def writeAt (file : List Nat) (off : Nat) (data : List Nat) : List Nat :=
  file.take off ++ data ++ file.drop (off + data.length)

/-- Bytes read for chunk idx (copy_chunk lines 147-155: seek the source to
idx * CHUNK_SIZE and read up to CHUNK_SIZE bytes). -/
def chunkData (src : List Nat) (idx : Nat) : List Nat :=
  (src.drop (idx * CHUNK_SIZE)).take CHUNK_SIZE

/-- Destination contents after worker t has written all its assigned chunks
(copy_chunk lines 144-165). -/
def applyWorker (src file : List Nat) (t total N : Nat) : List Nat :=
  (workerChunks t total N).foldl
    (fun f idx => writeAt f (idx * CHUNK_SIZE) (chunkData src idx)) file

/-- parallel_copy (parallel.rs lines 84-129): File::create plus set_len
pre-size the destination to total_size (fresh bytes, modelled as zeroes),
then the workers write their chunk sets. The byte ranges of distinct chunks
are disjoint, so worker interleaving cannot affect the final contents; the
model applies the workers in thread order. -/
def parallel_copy_dest (src : List Nat) (T : Nat) : List Nat :=
  (List.range (actual_threads T (num_chunks src.length))).foldl
    (fun f t => applyWorker src f t (num_chunks src.length)
      (actual_threads T (num_chunks src.length)))
    (List.replicate src.length 0)

/-- Success value of ParallelFileCopier::copy: the destination contents and
whether the whole-file checksum comparison ran. -/
structure ParallelCopyOutcome where
  dest : List Nat
  verified : Bool
deriving DecidableEq, Repr

/-- ParallelFileCopier::copy (parallel.rs lines 35-59) with the observable
state explicit: src is what stat and read of the source give, dstExisting
any contents already present at the target path. The destination goes
through File::create in both branches (truncation in sequential_copy line
66, truncation plus set_len in parallel_copy lines 88-91), so dstExisting
never influences the outcome, and no overwrite policy exists in this
engine. Below the CHUNK_SIZE threshold the function returns from
sequential_copy at line 47, before the verify check at line 54, and
sequential_copy itself never reads the verify flag. -/
def ParallelFileCopier.copy (c : ParallelFileCopier) (src : SourceInfo)
    (_dstExisting : Option (List Nat)) : Except Error ParallelCopyOutcome :=
  if ¬ src.present then .error (.sourceNotFound c.source)
  else if ¬ src.is_file then .error (.custom "Source is not a file")
  else if src.content.length < CHUNK_SIZE then
    .ok ⟨freshCopy src.content, false⟩
  else
    if c.verify then
      match verify_copy src.content (parallel_copy_dest src.content c.parallel_threads) with
      | .error e => .error e
      | .ok () => .ok ⟨parallel_copy_dest src.content c.parallel_threads, true⟩
    else .ok ⟨parallel_copy_dest src.content c.parallel_threads, false⟩

/-- Discriminator: whether an outcome is the Target-Already-Exists error. -/
def isTargetExists : Except Error ParallelCopyOutcome → Bool
  | .error (.targetExists _) => true
  | _ => false

theorem copyLoopTrace_no_delete (readFails writeFails : Nat → Bool) :
    ∀ remaining idx,
      FsOp.deleteSource ∉ (copyLoopTrace readFails writeFails remaining idx).1 := by
  intro remaining
  induction remaining with
  | zero =>
    intro idx
    simp [copyLoopTrace]
  | succ n ih =>
    intro idx
    rw [copyLoopTrace]
    by_cases hr : readFails idx = true
    · simp [hr]
    · by_cases hw : writeFails idx = true
      · simp [hr, hw]
      · simp only [hr, hw, Bool.false_eq_true, if_false]
        have := ih (idx + 1)
        rcases hcl : copyLoopTrace readFails writeFails n (idx + 1) with ⟨tr, e⟩
        rw [hcl] at this
        simp_all

theorem chunkByteRange_iff {S idx b : Nat} (hb : b < S) :
    chunkByteRange S idx b ↔ idx = b / CHUNK_SIZE := by
  have hC : 0 < CHUNK_SIZE := by decide
  unfold chunkByteRange
  constructor
  · rintro ⟨h1, h2⟩
    have h2b : b < idx * CHUNK_SIZE + CHUNK_SIZE := by
      generalize hM : idx * CHUNK_SIZE = M at h1 h2 ⊢
      omega
    have := Nat.div_eq_of_lt_le h1 (by rw [Nat.succ_mul]; exact h2b)
    omega
  · rintro rfl
    have h1 : b / CHUNK_SIZE * CHUNK_SIZE ≤ b := Nat.div_mul_le_self b CHUNK_SIZE
    have hdm := Nat.div_add_mod b CHUNK_SIZE
    have hml : b % CHUNK_SIZE < CHUNK_SIZE := Nat.mod_lt _ hC
    refine ⟨h1, ?_⟩
    have hcomm : CHUNK_SIZE * (b / CHUNK_SIZE) = b / CHUNK_SIZE * CHUNK_SIZE :=
      Nat.mul_comm _ _
    rw [hcomm] at hdm
    generalize hM : b / CHUNK_SIZE * CHUNK_SIZE = M at hdm h1 ⊢
    omega

/-- Source contents of the C1 scenario: 8 distinct bytes. -/
def c1src : List Nat := [10, 11, 12, 13, 14, 15, 16, 17]

/-- Resume record persisted before the interruption of the C1 scenario: one
completed range of 4 bytes from offset 0 (progress is persisted only every
fixed byte interval, so it can lag behind the bytes actually written). -/
def c1state : ResumeState :=
  ⟨"src.bin", "dst.bin", 8, [⟨0, 4, none⟩], "2025-01-01T12:00:00Z", "1.0"⟩

/-- Destination contents when the C1 resumed run starts: the interrupted run
had written 6 bytes, two more than the last persisted offset. -/
def c1dst : List Nat := [10, 11, 12, 13, 14, 15]

/-- Record for the C2 counterexample: a single completed range covering only
the first 10 bytes of a 100-byte transfer. -/
def c2state : ResumeState :=
  ⟨"src.bin", "dst.bin", 100, [⟨0, 10, none⟩], "2025-01-01T12:00:00Z", "1.0"⟩

/-- Source contents of the C3 scenario. -/
def c3src : List Nat := [1, 2, 3]

/-- A parseable record that fails contiguity validation: its only completed
range starts at offset 5 instead of 0. -/
def c3badState : ResumeState :=
  ⟨"src.bin", "dst.bin", 3, [⟨5, 3, none⟩], "2025-01-01T12:00:00Z", "1.0"⟩

/-- Copier of the C4 scenario: verification requested. -/
def c4copier : ParallelFileCopier := ⟨"src.bin", "dst.bin", 4, true⟩

/-- Source of the C4 scenario: a regular file far below CHUNK_SIZE. -/
def c4src : SourceInfo := ⟨true, true, [1, 2, 3]⟩

/-- C1. The Sequential Transfer Engine resumed run seeks the destination to
end-of-file instead of the persisted offset. With a valid persisted record
of 4 bytes but an on-disk destination of 6 bytes, the resumed copy appends
source bytes 4..8 after offset 6 and duplicates bytes 4 and 5: the final
destination is not byte-identical to the source. -/
theorem c1_resumed_destination_corrupt :
    c1state.validate = .ok () ∧
    c1state.bytes_completed = 4 ∧
    c1state.bytes_completed < c1dst.length ∧
    perform_copy_resumed c1src c1dst c1state.bytes_completed
      = [10, 11, 12, 13, 14, 15, 14, 15, 16, 17] ∧
    perform_copy_resumed c1src c1dst c1state.bytes_completed ≠ c1src := by
  refine ⟨?_, ?_, ?_, ?_, ?_⟩ <;> decide

/-- C2 counterexample. A record whose single completed range covers only
bytes 0..10 of a 100-byte transfer passes validate even though its ranges do
not tile the interval up to total_size: incomplete coverage is accepted, so
validation success is not equivalent to tiling all of [0, total_size). -/
theorem c2_incomplete_coverage_accepted :
    c2state.validate = .ok () ∧
    specTilesTotal c2state = false ∧
    c2state.bytes_completed < c2state.total_size := by
  refine ⟨?_, ?_, ?_⟩ <;> decide

/-- C2 amended. validate succeeds iff the completed ranges sorted by offset
are contiguous from offset 0 — each range offset equal to the running sum of
the preceding lengths, hence no gap, no overlap, no out-of-order duplicate —
with no requirement that the ranges reach total_size. -/
theorem c2_validate_iff_contiguous (s : ResumeState) :
    s.validate = .ok () ↔
      ∀ i (h : i < (sortChunks s.chunks_completed).length),
        ((sortChunks s.chunks_completed).get ⟨i, h⟩).offset
          = (((sortChunks s.chunks_completed).take i).map ChunkInfo.length).sum := by
  unfold ResumeState.validate
  by_cases hw : validateWalk 0 (sortChunks s.chunks_completed) = true
  · rw [if_pos hw]
    have hiff := (validateWalk_iff (sortChunks s.chunks_completed) 0).mp hw
    constructor
    · intro _ i h
      have hh := hiff i h
      simpa using hh
    · intro _
      rfl
  · rw [if_neg hw]
    constructor
    · intro hcontra
      simp at hcontra
    · intro hall
      exfalso
      apply hw
      apply (validateWalk_iff _ 0).mpr
      intro i h
      simpa using hall i h

/-- C2 witness: the amended equivalence applied to the concrete record of the
counterexample, whose sorted ranges are contiguous from 0. -/
theorem c2_amended_witness : c2state.validate = .ok () :=
  (c2_validate_iff_contiguous c2state).mpr (by decide)

/-- C3. With resume enabled, an unparseable resume record, or a parseable one
that fails contiguity validation, makes FileCopier::copy return
Err(InvalidResumeState) and abort: no fresh transfer runs, unlike the
no-record case, which completes. -/
theorem c3_invalid_record_aborts_copy :
    FileCopier.copyWithResume true .unparseable c3src [] = .error .invalidResumeState ∧
    c3badState.validate = .error .invalidResumeState ∧
    FileCopier.copyWithResume true (.parsed c3badState) c3src []
      = .error .invalidResumeState ∧
    FileCopier.copyWithResume true .absent c3src [] = .ok c3src := by
  refine ⟨?_, ?_, ?_, ?_⟩ <;> decide

/-- C4. ParallelFileCopier::copy with verification requested succeeds on a
file below the chunk-size threshold without computing or comparing any
checksum: the early return into sequential_copy bypasses the verify step, so
the outcome records that no verification ran despite the verify flag. -/
theorem c4_small_file_skips_verification :
    c4copier.verify = true ∧
    c4src.content.length < CHUNK_SIZE ∧
    c4copier.copy c4src none = .ok ⟨[1, 2, 3], false⟩ := by
  refine ⟨?_, ?_, ?_⟩ <;> decide

/-- C5. In atomic mode the staging path for destination archive.tmp is
archive.tmp itself, because set_extension replaces the existing tmp
extension with tmp: every streamed chunk is then written directly at the
final destination path. For a destination such as archive.iso the staging
path is distinct, as intended. -/
theorem c5_tmp_destination_staging_collides :
    writeTargetName true ("archive.tmp".toList) = "archive.tmp".toList ∧
    writeTargetName true ("archive.iso".toList) = "archive.tmp".toList ∧
    writeTargetName true ("archive.iso".toList) ≠ "archive.iso".toList := by
  refine ⟨?_, ?_, ?_⟩ <;> decide

/-- C6. A rename failure classified as cross-device (EXDEV, which the
standard library reports as the CrossesDevices error kind) is propagated
unchanged by the move dispatch instead of triggering copy-then-delete: the
fallback condition tests InvalidInput, a kind no cross-device rename
produces. Permission failures do fall back, and InvalidInput, not a
cross-device classification, falls back too. -/
theorem c6_cross_device_rename_propagates :
    move_file_dispatch (some .crossesDevices) = .propagated (.io .crossesDevices) ∧
    move_file_dispatch (some .crossesDevices) ≠ .copyThenDelete ∧
    move_file_dispatch (some .permissionDenied) = .copyThenDelete ∧
    move_file_dispatch (some .invalidInput) = .copyThenDelete ∧
    move_directory_dispatch (some .crossesDevices)
      = .propagated (.io .crossesDevices) := by
  refine ⟨?_, ?_, ?_, ?_, ?_⟩ <;> decide

/-- C7. In the copy-then-delete move, the source deletion appears in the
operation trace only when the copy loop completed without error, and then as
the final operation; any copy failure yields an error outcome whose trace
never contains the deletion — for files (chunk loop) and directories
(whole-tree copy followed by remove_dir_all) alike. -/
theorem c7_delete_only_after_full_copy (numChunks : Nat)
    (readFails writeFails : Nat → Bool) :
    (∀ e, (move_via_copy numChunks readFails writeFails).2 = some e →
        FsOp.deleteSource ∉ (move_via_copy numChunks readFails writeFails).1) ∧
    (FsOp.deleteSource ∈ (move_via_copy numChunks readFails writeFails).1 →
        (move_via_copy numChunks readFails writeFails).2 = none ∧
        (move_via_copy numChunks readFails writeFails).1.getLast?
          = some FsOp.deleteSource) ∧
    (∀ e : Error, (move_directory_via_copy (some e)).1 = []) ∧
    (move_directory_via_copy none).1 = [FsOp.deleteSource] := by
  have hnd := copyLoopTrace_no_delete readFails writeFails numChunks 0
  unfold move_via_copy
  rcases hcl : copyLoopTrace readFails writeFails numChunks 0 with ⟨tr, e⟩
  rw [hcl] at hnd
  cases e with
  | none =>
    refine ⟨?_, ?_, ?_, ?_⟩
    · intro e he
      simp at he
    · intro _
      exact ⟨rfl, List.getLast?_concat _⟩
    · intro e
      rfl
    · rfl
  | some err =>
    refine ⟨?_, ?_, ?_, ?_⟩
    · intro e _
      exact hnd
    · intro hmem
      exact absurd hmem hnd
    · intro e
      rfl
    · rfl

/-- C7 witness: a concrete move whose second chunk read fails never deletes
the source, and a concrete fully successful move deletes it last. -/
theorem c7_witness :
    FsOp.deleteSource ∉ (move_via_copy 2 (fun i => i == 1) (fun _ => false)).1 ∧
    (move_via_copy 2 (fun _ => false) (fun _ => false)).2 = none ∧
    (move_via_copy 2 (fun _ => false) (fun _ => false)).1.getLast?
      = some FsOp.deleteSource := by
  refine ⟨?_, ?_, ?_⟩
  · exact (c7_delete_only_after_full_copy 2 _ _).1 (.io .uncategorized) (by decide)
  · exact ((c7_delete_only_after_full_copy 2 _ _).2.1 (by decide)).1
  · exact ((c7_delete_only_after_full_copy 2 _ _).2.1 (by decide)).2

/-- C8. Round-robin chunk partition: with a positive requested thread count,
every chunk index below num_chunks is handled by exactly one worker, and
every byte position below the file size lies in the byte range of exactly
one (worker, chunk) pair — the ranges written by distinct workers are
pairwise disjoint and jointly cover the whole file. -/
theorem c8_round_robin_partition (S T : Nat) (hT : 0 < T) :
    (∀ idx, idx < num_chunks S →
      ∃! t, t < actual_threads T (num_chunks S) ∧
        idx ∈ workerChunks t (num_chunks S) (actual_threads T (num_chunks S))) ∧
    (∀ b, b < S →
      ∃! p : Nat × Nat,
        p.1 < actual_threads T (num_chunks S) ∧
        p.2 ∈ workerChunks p.1 (num_chunks S) (actual_threads T (num_chunks S)) ∧
        chunkByteRange S p.2 b) := by
  have hC : 0 < CHUNK_SIZE := by decide
  constructor
  · intro idx hidx
    have hnc : 0 < num_chunks S := by omega
    have hA : 0 < actual_threads T (num_chunks S) := by
      unfold actual_threads
      omega
    refine ⟨idx % actual_threads T (num_chunks S),
      ⟨Nat.mod_lt _ hA, (mem_workerChunks hA (Nat.mod_lt _ hA)).mpr ⟨hidx, rfl⟩⟩, ?_⟩
    rintro t ⟨htA, hmem⟩
    exact (((mem_workerChunks hA htA).mp hmem).2).symm
  · intro b hb
    have hS : 0 < S := by omega
    have hnc : 0 < num_chunks S := by
      unfold num_chunks
      rw [Nat.lt_iff_add_one_le, Nat.le_div_iff_mul_le hC]
      omega
    have hA : 0 < actual_threads T (num_chunks S) := by
      unfold actual_threads
      omega
    have hidx0 : b / CHUNK_SIZE < num_chunks S := by
      unfold num_chunks
      rw [Nat.lt_iff_add_one_le, Nat.le_div_iff_mul_le hC, Nat.succ_mul]
      have h1 : b / CHUNK_SIZE * CHUNK_SIZE ≤ b := Nat.div_mul_le_self b CHUNK_SIZE
      generalize hM : b / CHUNK_SIZE * CHUNK_SIZE = M at h1 ⊢
      omega
    have hrange : chunkByteRange S (b / CHUNK_SIZE) b := (chunkByteRange_iff hb).mpr rfl
    refine ⟨(b / CHUNK_SIZE % actual_threads T (num_chunks S), b / CHUNK_SIZE),
      ⟨Nat.mod_lt _ hA,
        (mem_workerChunks hA (Nat.mod_lt _ hA)).mpr ⟨hidx0, rfl⟩, hrange⟩, ?_⟩
    rintro ⟨t, idx⟩ ⟨htA, hmem, hr⟩
    have hidx : idx = b / CHUNK_SIZE := (chunkByteRange_iff hb).mp hr
    subst hidx
    have hmod := ((mem_workerChunks hA htA).mp hmem).2
    simp only [Prod.mk.injEq]
    exact ⟨hmod.symm, trivial⟩

/-- C8 witness: a file of two whole chunks plus 5 bytes across three
workers; chunk index 2 has a unique worker, and the byte just past the
first chunk boundary is covered by exactly one (worker, chunk) pair. -/
theorem c8_witness :
    (∃! t, t < actual_threads 3 (num_chunks (2 * CHUNK_SIZE + 5)) ∧
      2 ∈ workerChunks t (num_chunks (2 * CHUNK_SIZE + 5))
        (actual_threads 3 (num_chunks (2 * CHUNK_SIZE + 5)))) ∧
    (∃! p : Nat × Nat,
      p.1 < actual_threads 3 (num_chunks (2 * CHUNK_SIZE + 5)) ∧
      p.2 ∈ workerChunks p.1 (num_chunks (2 * CHUNK_SIZE + 5))
        (actual_threads 3 (num_chunks (2 * CHUNK_SIZE + 5))) ∧
      chunkByteRange (2 * CHUNK_SIZE + 5) p.2 (CHUNK_SIZE + 1)) :=
  ⟨(c8_round_robin_partition (2 * CHUNK_SIZE + 5) 3 (by decide)).1 2 (by decide),
   (c8_round_robin_partition (2 * CHUNK_SIZE + 5) 3 (by decide)).2
     (CHUNK_SIZE + 1) (by decide)⟩

/-- C9. A verified sequential copy whose digests differ fails with
checksumMismatch carrying both (unequal) digests and leaves the resume
ledger record in place; identical contents verify successfully and the
record is deleted. -/
theorem c9_verify_mismatch_keeps_ledger (srcContent tgtContent : List Nat) :
    (compute_checksum srcContent ≠ compute_checksum tgtContent →
      finishSequential true srcContent tgtContent =
        ⟨.error (.checksumMismatch (compute_checksum srcContent)
          (compute_checksum tgtContent)), false⟩) ∧
    (srcContent = tgtContent →
      finishSequential true srcContent tgtContent = ⟨.ok (), true⟩) := by
  constructor
  · intro hne
    simp [finishSequential, verify_copy, hne]
  · intro heq
    subst heq
    simp [finishSequential, verify_copy]

/-- C9 witness: concrete one-byte contents with distinct digests, and
concrete identical contents. -/
theorem c9_witness :
    finishSequential true [1] [2] =
      ⟨.error (.checksumMismatch (compute_checksum [1]) (compute_checksum [2])),
        false⟩ ∧
    finishSequential true [3] [3] = ⟨.ok (), true⟩ :=
  ⟨(c9_verify_mismatch_keeps_ledger [1] [2]).1 (by decide),
   (c9_verify_mismatch_keeps_ledger [3] [3]).2 rfl⟩

/-- C10. The parallel engine never consults an overwrite policy: its outcome
is the same whatever already sits at the destination (File::create discards
existing contents in both branches), and no input yields the
Target-Already-Exists error. -/
theorem c10_parallel_overwrites_unconditionally (c : ParallelFileCopier)
    (src : SourceInfo) (dstOld : Option (List Nat)) :
    c.copy src dstOld = c.copy src none ∧
    isTargetExists (c.copy src dstOld) = false := by
  constructor
  · rfl
  · unfold ParallelFileCopier.copy
    split
    · rfl
    · split
      · rfl
      · split
        · rfl
        · split
          · split
            · rename_i e heq
              unfold verify_copy at heq
              split at heq
              · simp at heq
              · cases heq
                rfl
            · rfl
          · rfl

end BetterCp
